import Mathlib

set_option maxRecDepth 16384

/-!
Verification of the PicoReg SWD protocol engine (picoreg_gpio.py).

The Python source is shallowly embedded as executable Lean definitions:

* machine integers are modelled as `Nat`, with the truncation that the
  ctypes bit-field stores perform made explicit (`% 2 ^ width`);
* the transmit buffer `txdata` is a `List Tx` (driven bit or sample
  placeholder, mirroring the characters "0"/"1"/".");
* the receive buffer `rxdata` is a `List Bool`;
* the physical line is an injected environment: a function giving the
  level sampled by the k-th `GPIO.input` call of an `xfer`, and at the
  connection level a function of (transfer index, sample index);
* `GpioDrv.xfer` additionally returns the ordered trace of GPIO events
  (direction changes, level writes, level reads, clock edges);
* fallible operations (`recv_bits` on a short buffer, which the Python
  code would turn into a ctypes `TypeError`) return `Option`.
-/

/-! ### Wire level: transmit/receive buffers and the GPIO transfer -/

/-- One entry of the transmit buffer: a driven bit ("0"/"1") or a
sample placeholder ("."). -/
inductive Tx where
  | drive (b : Bool)
  | sample
deriving DecidableEq

/-- A GPIO event performed by `GpioDrv.xfer`, in execution order. -/
inductive Ev where
  | setupIn
  | setupOut
  | writeData (b : Bool)
  | readData (b : Bool)
  | clkHigh
  | clkLow
deriving DecidableEq

/-- Direction of the data line. -/
inductive Dir where
  | inp
  | out
deriving DecidableEq

namespace GpioDrv

/-- `GpioDrv.send_bits`: the chunk appended to the transmit buffer — `nbits`
sample placeholders if `recv`, else the low `nbits` bits of `data`, LSB
first. -/
def send_bits (data nbits : Nat) (recv : Bool) : List Tx :=
  (List.range nbits).map (fun n => if recv then Tx.sample else Tx.drive (data.testBit n))

/-- `GpioDrv.send_bytes`: each byte as 8 bits, LSB first. -/
def send_bytes (data : List Nat) (recv : Bool) : List Tx :=
  (data.map (fun b => send_bits b 8 recv)).flatten

/-- Value of a received bit string, LSB first (the `val |= 1 << n` loop of
`recv_bits`). -/
def bitsVal : List Bool → Nat
  | [] => 0
  | b :: r => (if b then 1 else 0) + 2 * bitsVal r

/-- `GpioDrv.recv_bits`: take `nbits` bits from the receive buffer; `none`
if the buffer is too short (in which case the buffer is left unchanged). -/
def recv_bits (nbits : Nat) (rx : List Bool) : Option Nat × List Bool :=
  if nbits ≤ rx.length then (some (bitsVal (rx.take nbits)), rx.drop nbits)
  else (none, rx)

/-- The loop body of `GpioDrv.xfer`: walks the transmit buffer carrying the
previous entry (`last`, `none` for the initial empty `lastbit`) and the
number of samples taken so far (`k`); `lvl k` is the level returned by the
k-th `GPIO.input` call.  Returns the event trace and the receive buffer. -/
def xferAux : List Tx → Option Tx → Nat → (Nat → Bool) → List Ev × List Bool
  | [], _, _, _ => ([], [])
  | Tx.sample :: rest, last, k, lvl =>
    let b := lvl k
    let evs := Ev.readData b ::
      ((if last = some Tx.sample then [] else [Ev.setupIn]) ++ [Ev.clkHigh, Ev.clkLow])
    let p := xferAux rest (some Tx.sample) (k + 1) lvl
    (evs ++ p.1, b :: p.2)
  | Tx.drive b :: rest, last, k, lvl =>
    let evs :=
      (match last with
       | none => [Ev.setupOut]
       | some Tx.sample => [Ev.setupOut]
       | some (Tx.drive _) => []) ++ [Ev.writeData b, Ev.clkHigh, Ev.clkLow]
    let p := xferAux rest (some (Tx.drive b)) k lvl
    (evs ++ p.1, p.2)

/-- `GpioDrv.xfer`: transmit the buffer, returning the GPIO event trace and
the sampled receive buffer. -/
def xfer (plan : List Tx) (lvl : Nat → Bool) : List Ev × List Bool :=
  xferAux plan none 0 lvl

end GpioDrv

/-! ### Protocol constants (module-level constants of the source) -/

def NUM_TRIES : Nat := 3
def SWD_DP : Nat := 0
def SWD_AP : Nat := 1
def SWD_WR : Nat := 0
def SWD_RD : Nat := 1
def DP_CORE0 : Nat := 0x01002927
def DP_CORE1 : Nat := 0x11002927
def SWD_ACK_OK : Nat := 1
def SWD_ACK_WAIT : Nat := 2
def SWD_ACK_ERROR : Nat := 4

/-! ### parity32 and a reference population count -/

/-- `parity32`: the SWAR parity computation of the source, verbatim on
`Nat` (Python integers are unbounded, the subtraction never underflows
for the first step since `(i >>> 1) &&& m ≤ i`). -/
def parity32 (i : Nat) : Nat :=
  let i1 := i - ((i >>> 1) &&& 0x55555555)
  let i2 := (i1 &&& 0x33333333) + ((i1 >>> 2) &&& 0x33333333)
  let i3 := (((i2 + (i2 >>> 4)) &&& 0x0F0F0F0F) * 0x01010101) >>> 24
  i3 &&& 1

/-- Number of set bits, with structural fuel so that the kernel can
evaluate it. -/
def popcountAux : Nat → Nat → Nat
  | 0, _ => 0
  | fuel + 1, n => if n = 0 then 0 else n % 2 + popcountAux fuel (n / 2)

/-- Reference population count: the number of set bits of `n`. -/
def popcount (n : Nat) : Nat := popcountAux n n

/-! Byte-indexed view of the three SWAR mask stages of `parity32`, used to
prove it correct.  `rep b n` is the 32-bit mask constant restricted to `n`
bytes (`rep 0x55 4 = 0x55555555` and so on); `s1/s2/s3` are the three mask
stages with an `n`-byte mask, and `pipe` their composition, so that
`parity32` is the 4-byte pipeline followed by the multiply-accumulate. -/

def rep (b : Nat) : Nat → Nat
  | 0 => 0
  | n + 1 => b + 256 * rep b n

def s1 (n v : Nat) : Nat := v - ((v >>> 1) &&& rep 0x55 n)

def s2 (n v : Nat) : Nat := (v &&& rep 0x33 n) + ((v >>> 2) &&& rep 0x33 n)

def s3 (n v : Nat) : Nat := (v + (v >>> 4)) &&& rep 0x0F n

def pipe (n v : Nat) : Nat := s3 n (s2 n (s1 n v))

/-- The per-byte action of the pipeline (byte population count). -/
def pcb (x : Nat) : Nat := pipe 1 x

/-! ### BitReg: a register with multiple bit-fields -/

/-- One `(name, c_uint, width)` entry of a ctypes field list. -/
structure BitField where
  name : String
  width : Nat
deriving DecidableEq

def swd_hdr : List BitField :=
  [⟨"Start", 1⟩, ⟨"APnDP", 1⟩, ⟨"RnW", 1⟩, ⟨"Addr", 2⟩,
   ⟨"Parity", 1⟩, ⟨"Stop", 1⟩, ⟨"Park", 1⟩]

def swd_ack : List BitField := [⟨"ack", 3⟩]

def swd_val32p : List BitField := [⟨"value", 32⟩, ⟨"parity", 1⟩]

def swd_turn : List BitField := [⟨"turn", 1⟩]

/-- `BitReg`: field declarations, direction flag and the current field
values (positionally parallel to `fields`). -/
structure BitReg where
  fields : List BitField
  recv : Bool
  vals : List Nat
deriving DecidableEq

/-- Total declared bit width of a field list (`BitReg.nbits`). -/
def totalWidth (fields : List BitField) : Nat := (fields.map BitField.width).sum

def BitReg.nbits (r : BitReg) : Nat := totalWidth r.fields

/-- `BitReg.send_vals`: append every field's value (or placeholders). -/
def BitReg.send_vals (r : BitReg) : List Tx :=
  (List.zipWith (fun (f : BitField) v => GpioDrv.send_bits v f.width r.recv) r.fields r.vals).flatten

/-- The field loop of `BitReg.recv_vals`: for each field, if the register
is in sampled mode take `width` bits from the buffer and overwrite the
value, otherwise leave the value alone; `none` models the ctypes error
raised when `recv_bits` comes back empty-handed. -/
def recvValsAux : List BitField → List Nat → Bool → List Bool → Option (List Nat × List Bool)
  | [], vs, _, rx => some (vs, rx)
  | _ :: _, [], _, rx => some ([], rx)
  | f :: fs, v :: vs, recv, rx =>
    if recv then
      match GpioDrv.recv_bits f.width rx with
      | (some nv, rx') => (recvValsAux fs vs recv rx').map (fun q => (nv :: q.1, q.2))
      | (none, _) => none
    else
      (recvValsAux fs vs recv rx).map (fun q => (v :: q.1, q.2))

/-- `BitReg.recv_vals` on an explicit receive buffer. -/
def BitReg.recv_vals (r : BitReg) (rx : List Bool) : Option (BitReg × List Bool) :=
  (recvValsAux r.fields r.vals r.recv rx).map (fun q => ({ r with vals := q.1 }, q.2))

/-- The driven bits of a plan, as the levels a perfectly echoing line would
sample (a sample placeholder contributes an arbitrary `false`). -/
def planBools (plan : List Tx) : List Bool :=
  plan.map (fun t => match t with | Tx.drive b => b | Tx.sample => false)

/-! Generic register list of one SWD message, as `SwdMsg.set` assembles it
(`regs = [hdr, turn1, ack] + ([val32p, turn2] if rd else [turn2, val32p])`,
with `val32p.recv = rd`). -/

def swdRegs (rd : Nat) (hv t1v av t2v vv : List Nat) : List BitReg :=
  let hdr : BitReg := ⟨swd_hdr, false, hv⟩
  let turn1 : BitReg := ⟨swd_turn, true, t1v⟩
  let ack : BitReg := ⟨swd_ack, true, av⟩
  let turn2 : BitReg := ⟨swd_turn, true, t2v⟩
  let val32p : BitReg := ⟨swd_val32p, rd != 0, vv⟩
  [hdr, turn1, ack] ++ (if rd != 0 then [val32p, turn2] else [turn2, val32p])

/-- The combined transmit plan of a register list (`SwdMsg.send_vals`). -/
def planOf (regs : List BitReg) : List Tx := (regs.map BitReg.send_vals).flatten

/-- Number of sample placeholders in a plan. -/
def sampleCount (plan : List Tx) : Nat := plan.countP (fun t => t == Tx.sample)

/-- Total width of the registers that `recv_vals` decodes. -/
def recvWidthSum (regs : List BitReg) : Nat :=
  (regs.map (fun r => if r.recv then totalWidth r.fields else 0)).sum

/-- `SwdMsg.recv_vals` over a register list: decode each register in order
from the shared receive buffer. -/
def recvAllRegs : List BitReg → List Bool → Option (List BitReg × List Bool)
  | [], rx => some ([], rx)
  | r :: rs, rx =>
    match r.recv_vals rx with
    | some (r', rx') => (recvAllRegs rs rx').map (fun q => (r' :: q.1, q.2))
    | none => none

/-! ### SwdMsg: header, ack and 32-bit value

The five `BitReg`s of `SwdMsg` have fixed shapes, so the message state is
embedded as one flat record of field values; `regs` keeps the frame order
that `SwdMsg.set` assembles (the Python list holds aliases of the five
registers, so it is a list of tags here).  ctypes truncates on every store
into a bit-field, hence the `% 2 ^ width` at the assignments of `set`. -/

/-- Tag naming one of the five registers of `SwdMsg`. -/
inductive RegTag where
  | hdr
  | turn1
  | ack
  | turn2
  | val32p
deriving DecidableEq

structure Msg where
  Start : Nat
  APnDP : Nat
  RnW : Nat
  Addr : Nat
  Parity : Nat
  Stop : Nat
  Park : Nat
  turn1 : Nat
  ack : Nat
  turn2 : Nat
  value : Nat
  vparity : Nat
  v32recv : Bool
  regs : List RegTag
  ok : Bool
deriving DecidableEq

namespace Msg

/-- The state `SwdMsg.__init__` builds: `Start=1, Stop=0, Park=1`, all
other values zero, `val32p` in driven mode, no frame list yet. -/
def init : Msg :=
  { Start := 1, APnDP := 0, RnW := 0, Addr := 0, Parity := 0, Stop := 0, Park := 1,
    turn1 := 0, ack := 0, turn2 := 0, value := 0, vparity := 0,
    v32recv := false, regs := [], ok := false }

/-- `SwdMsg.set`: fill in the header for a read or write cycle, the data
word, the frame order, and the direction of the data frame. -/
def set (ap rd addr val : Nat) (m : Msg) : Msg :=
  { m with
    APnDP := ap % 2,
    RnW := rd % 2,
    Addr := (addr >>> 2) % 4,
    Parity := (ap ^^^ rd ^^^ (addr >>> 2) ^^^ (addr >>> 3)) &&& 1,
    value := val % 2 ^ 32,
    vparity := parity32 val,
    regs := [RegTag.hdr, RegTag.turn1, RegTag.ack] ++
      (if rd != 0 then [RegTag.val32p, RegTag.turn2] else [RegTag.turn2, RegTag.val32p]),
    v32recv := rd != 0 }

/-- Transmit plan of one register of the message (its `send_vals`). -/
def regPlan (m : Msg) : RegTag → List Tx
  | RegTag.hdr =>
    GpioDrv.send_bits m.Start 1 false ++ GpioDrv.send_bits m.APnDP 1 false ++
    GpioDrv.send_bits m.RnW 1 false ++ GpioDrv.send_bits m.Addr 2 false ++
    GpioDrv.send_bits m.Parity 1 false ++ GpioDrv.send_bits m.Stop 1 false ++
    GpioDrv.send_bits m.Park 1 false
  | RegTag.turn1 => GpioDrv.send_bits m.turn1 1 true
  | RegTag.ack => GpioDrv.send_bits m.ack 3 true
  | RegTag.turn2 => GpioDrv.send_bits m.turn2 1 true
  | RegTag.val32p =>
    GpioDrv.send_bits m.value 32 m.v32recv ++ GpioDrv.send_bits m.vparity 1 m.v32recv

/-- `SwdMsg.send_vals`: the plans of all frames, in `regs` order. -/
def send_vals (m : Msg) : List Tx := (m.regs.map (regPlan m)).flatten

/-- Decode one register of the message from the receive buffer (its
`recv_vals`); registers in driven mode consume nothing. -/
def regRecv (m : Msg) (rx : List Bool) : RegTag → Option (Msg × List Bool)
  | RegTag.hdr => some (m, rx)
  | RegTag.turn1 =>
    match GpioDrv.recv_bits 1 rx with
    | (some v, rx') => some ({ m with turn1 := v }, rx')
    | (none, _) => none
  | RegTag.ack =>
    match GpioDrv.recv_bits 3 rx with
    | (some v, rx') => some ({ m with ack := v }, rx')
    | (none, _) => none
  | RegTag.turn2 =>
    match GpioDrv.recv_bits 1 rx with
    | (some v, rx') => some ({ m with turn2 := v }, rx')
    | (none, _) => none
  | RegTag.val32p =>
    if m.v32recv then
      match GpioDrv.recv_bits 32 rx with
      | (some v, rx') =>
        match GpioDrv.recv_bits 1 rx' with
        | (some p, rx'') => some ({ m with value := v, vparity := p }, rx'')
        | (none, _) => none
      | (none, _) => none
    else some (m, rx)

/-- The register loop of `SwdMsg.recv_vals`. -/
def recvRegs : List RegTag → Msg → List Bool → Option (Msg × List Bool)
  | [], m, rx => some (m, rx)
  | t :: ts, m, rx =>
    match regRecv m rx t with
    | some (m', rx') => recvRegs ts m' rx'
    | none => none

/-- `SwdMsg.check`: ack must be OK, and on a read the sampled parity must
match the fold-XOR parity of the sampled value. -/
def check (m : Msg) : Msg :=
  { m with ok := m.ack == 1 && (m.RnW == 0 || parity32 m.value == m.vparity) }

/-- `SwdMsg.read` at the message level: `set`, `send_vals`, `xfer`,
`recv_vals`, `check`.  `lvl k` is the line level sampled for the k-th
sample placeholder of this transfer. -/
def read (lvl : Nat → Bool) (ap addr : Nat) (m : Msg) : Option Msg :=
  let m1 := set ap SWD_RD addr 0 m
  let rx := (GpioDrv.xfer (send_vals m1) lvl).2
  (recvRegs m1.regs m1 rx).map (fun q => check q.1)

/-- `SwdMsg.write` at the message level. -/
def write (lvl : Nat → Bool) (ap addr val : Nat) (m : Msg) : Option Msg :=
  let m1 := set ap SWD_WR addr val m
  let rx := (GpioDrv.xfer (send_vals m1) lvl).2
  (recvRegs m1.regs m1 rx).map (fun q => check q.1)

/-- The dormant-state exit plan of `arm_wakeup_msg`. -/
def wakeupPlan : List Tx :=
  GpioDrv.send_bytes [0xff] false ++
  GpioDrv.send_bytes [0x92, 0xF3, 0x09, 0x62, 0x95, 0x2D, 0x85, 0x86,
    0xE9, 0xAF, 0xDD, 0xE3, 0xA2, 0x0E, 0xBC, 0x19] false ++
  GpioDrv.send_bits 0 4 false ++
  GpioDrv.send_bytes [0x1a] false

/-- The line-reset plan of `swd_reset_msg`. -/
def resetPlan : List Tx :=
  GpioDrv.send_bytes [0xff, 0xff, 0xff, 0xff, 0xff, 0xff, 0xff, 0x00] false

end Msg

/-! ### SwdConnection

The connection state carries the count `t` of `xfer` calls made so far;
the environment `env : Nat → Nat → Bool` fixes the level sampled at the
k-th sample of the t-th transfer, which is the whole observable behaviour
of the physical line. -/

structure Conn where
  connected : Bool
  dp : Nat
  t : Nat
  msg : Msg
deriving DecidableEq

/-- The state after `SwdConnection.__init__` plus `open`. -/
def Conn.init : Conn := { connected := false, dp := DP_CORE0, t := 0, msg := Msg.init }

namespace Conn

/-- `set_core`: select which core's debug port identifier is used. -/
def set_core (core : Nat) (c : Conn) : Conn :=
  { c with dp := if core != 0 then DP_CORE1 else DP_CORE0 }

/-- One message-level write, consuming one transfer slot of the
environment. -/
def doWrite (env : Nat → Nat → Bool) (ap addr val : Nat) (c : Conn) : Option Conn :=
  (Msg.write (env c.t) ap addr val c.msg).map (fun m => { c with msg := m, t := c.t + 1 })

/-- One message-level read, consuming one transfer slot of the
environment. -/
def doRead (env : Nat → Nat → Bool) (ap addr : Nat) (c : Conn) : Option Conn :=
  (Msg.read (env c.t) ap addr c.msg).map (fun m => { c with msg := m, t := c.t + 1 })

/-- `SwdConnection.connect`: wake-up plus line-reset in one transfer (no
samples), then the unacknowledged debug-port select write.  The Python
method always returns `True`. -/
def connect (env : Nat → Nat → Bool) (c : Conn) : Option Conn :=
  doWrite env SWD_DP 0xc c.dp { c with t := c.t + 1 }

/-- `SwdConnection.get_dpidr`: read DP register 0, give back its value if
the transaction checked out. -/
def get_dpidr (env : Nat → Nat → Bool) (c : Conn) : Option (Option Nat × Conn) :=
  (doRead env SWD_DP 0 c).map
    (fun c' => ((if c'.msg.ok then some c'.msg.value else none), c'))

/-- `SwdConnection.power_up`: the fixed power-up handshake; the AHB ID is
captured after the seventh transaction and returned only if the final
write also checked out. -/
def power_up (env : Nat → Nat → Bool) (c : Conn) : Option (Option Nat × Conn) :=
  (doWrite env SWD_DP 0 0x1e c).bind fun c1 =>
  (doWrite env SWD_DP 8 0 c1).bind fun c2 =>
  (doWrite env SWD_DP 4 0x50000001 c2).bind fun c3 =>
  (doRead env SWD_DP 4 c3).bind fun c4 =>
  (doWrite env SWD_DP 8 0xf0 c4).bind fun c5 =>
  (doRead env SWD_AP 0xc c5).bind fun c6 =>
  (doRead env SWD_DP 0xc c6).bind fun c7 =>
  let idr := if c7.msg.ok then some c7.msg.value else none
  (doWrite env SWD_AP 0 0xA2000012 c7).bind fun c8 =>
  (doWrite env SWD_DP 8 0 c8).map fun c9 =>
  ((if c9.msg.ok then idr else none), c9)

/-- `SwdConnection.peek`: set the AP transfer address, trigger the AP read,
fetch the result from the DP read buffer; the value is returned iff the
message's `ok` flag — set by the last of the three transactions — holds. -/
def peek (env : Nat → Nat → Bool) (addr : Nat) (c : Conn) : Option (Option Nat × Conn) :=
  (doWrite env SWD_AP 4 addr c).bind fun c1 =>
  (doRead env SWD_AP 0xc c1).bind fun c2 =>
  (doRead env SWD_DP 0xc c2).map fun c3 =>
  ((if c3.msg.ok then some c3.msg.value else none), c3)

end Conn

/-! ### The retry loop `conn_func_retry` -/

/-- State of the `while` loop of `conn_func_retry`. -/
structure LoopSt where
  c : Conn
  tries : Nat
  val : Option Nat
deriving DecidableEq

/-- Result of running the loop for a bounded number of iterations:
`out v s` means the loop exited returning `v`; `more s` means the fuel ran
out with the loop still going; `crash` models a ctypes error escaping from
a transaction (provably unreachable from well-formed states). -/
inductive LoopRes where
  | out (v : Option Nat) (s : LoopSt)
  | more (s : LoopSt)
  | crash
deriving DecidableEq

/-- `LoopRes` values that correspond to `conn_func_retry` actually
returning (or raising): anything but running out of fuel. -/
def LoopTerminal : LoopRes → Prop
  | LoopRes.more _ => False
  | _ => True

instance : DecidablePred LoopTerminal := fun r =>
  match r with
  | LoopRes.out _ _ => isTrue trivial
  | LoopRes.more _ => isFalse id
  | LoopRes.crash => isTrue trivial

/-- The reconnection half of the loop body: if not connected, `connect`
(which always reports success), mark connected, read the DPIDR and run
`power_up`; either failing clears the connected flag, full success resets
the budget. -/
def loopBody1 (env : Nat → Nat → Bool) (c : Conn) (tries : Nat) : Option (Conn × Nat) :=
  if c.connected then some (c, tries)
  else
    (Conn.connect env c).bind fun ca =>
    (Conn.get_dpidr env { ca with connected := true }).bind fun p =>
    match p.1 with
    | none => some ({ p.2 with connected := false }, tries)
    | some _ =>
      (Conn.power_up env p.2).bind fun q =>
      match q.1 with
      | none => some ({ q.2 with connected := false }, tries)
      | some _ => some (q.2, NUM_TRIES)

/-- One iteration of `conn_func_retry`: the `while` guard, the
reconnection half, then either the budget decrement, the function-less
`break`, or the call of `func` with its budget bookkeeping. -/
def loopStep (env : Nat → Nat → Bool) (funcOpt : Option (Conn → Option Nat × Conn))
    (s : LoopSt) : LoopRes :=
  if s.tries == 0 || s.val.isSome then LoopRes.out s.val s
  else
    (loopBody1 env s.c s.tries).elim LoopRes.crash fun p =>
      if p.1.connected then
        match funcOpt with
        | none => LoopRes.out s.val { c := p.1, tries := p.2, val := s.val }
        | some func =>
          match (func p.1).1 with
          | none =>
            LoopRes.more
              { c := { (func p.1).2 with connected := false }, tries := p.2 - 1, val := none }
          | some x => LoopRes.more { c := (func p.1).2, tries := p.2, val := some x }
      else LoopRes.more { c := p.1, tries := p.2 - 1, val := none }

/-- Continue the loop only when the previous iteration did not exit. -/
def loopCont (r : LoopRes) (k : LoopSt → LoopRes) : LoopRes :=
  match r with
  | LoopRes.more s' => k s'
  | r => r

/-- Run at most `fuel` iterations of the loop. -/
def loopRun (env : Nat → Nat → Bool) (funcOpt : Option (Conn → Option Nat × Conn)) :
    Nat → LoopSt → LoopRes
  | 0, s => LoopRes.more s
  | fuel + 1, s => loopCont (loopStep env funcOpt s) (loopRun env funcOpt fuel)

/-- `SwdConnection.conn_func_retry`, bounded by `fuel` loop iterations. -/
def conn_func_retry (env : Nat → Nat → Bool) (funcOpt : Option (Conn → Option Nat × Conn))
    (fuel : Nat) (c : Conn) : LoopRes :=
  loopRun env funcOpt fuel { c := c, tries := NUM_TRIES, val := none }

/-! ### Environments and operations used as concrete scenarios -/

/-- A line behaviour under which every transaction succeeds: the sample at
index 1 — the low ack bit — reads high, every other sample reads low, so
every ack decodes to OK and every sampled data word is 0 with correct
parity. -/
def envOK : Nat → Nat → Bool := fun _ k => k == 1

/-- A line behaviour failing only the first transaction: all samples of
transfer 0 read low (ack = 0), later transfers behave like `envOK`. -/
def envFail0 : Nat → Nat → Bool := fun t k => t != 0 && k == 1

/-- The always-failing operation (an operation whose every call reports
failure). -/
def funcNone : Conn → Option Nat × Conn := fun c => (none, c)

/-- An operation that always succeeds with value 5. -/
def funcFive : Conn → Option Nat × Conn := fun c => (some 5, c)

/-! ### Trace predicates for the xfer claims -/

/-- Data-line direction after one GPIO event. -/
def dirStep (d : Dir) : Ev → Dir
  | Ev.setupIn => Dir.inp
  | Ev.setupOut => Dir.out
  | _ => d

/-- Whether some `readData` event of the trace happens while the data line
is configured as an output, starting from direction `d`. -/
def anyReadAtOut : Dir → List Ev → Bool
  | _, [] => false
  | d, e :: r =>
    (match e with
     | Ev.readData _ => d == Dir.out
     | _ => false) || anyReadAtOut (dirStep d e) r

/-- Every `readData` of the trace either happens with the line already an
input, or is immediately followed by the (lazy) switch to input. -/
def readsOk : Dir → List Ev → Bool
  | _, [] => true
  | d, e :: r =>
    (match e with
     | Ev.readData _ =>
       d == Dir.inp ||
       (match r with
        | Ev.setupIn :: _ => true
        | _ => false)
     | _ => true) && readsOk (dirStep d e) r

/-- Clock events. -/
def isClk : Ev → Bool
  | Ev.clkHigh => true
  | Ev.clkLow => true
  | _ => false

/-- Direction suggested by the previous transmit entry: after a sample the
line is an input, after a driven bit an output, initially (`lastbit` empty,
after `GpioDrv.open`) an input. -/
def lastDir : Option Tx → Dir
  | some (Tx.drive _) => Dir.out
  | some Tx.sample => Dir.inp
  | none => Dir.inp

/-- The message state left behind by one full (successful) reconnection
cycle plus a failed operation under the all-OK line `envOK`: the state
after the final `write(DP, 8, 0)` of `power_up`.  It is a fixed point of
that cycle. -/
def msgA : Msg :=
  { Start := 1, APnDP := 0, RnW := 0, Addr := 2, Parity := 1, Stop := 0, Park := 1,
    turn1 := 0, ack := 1, turn2 := 0, value := 0, vparity := 0,
    v32recv := false,
    regs := [RegTag.hdr, RegTag.turn1, RegTag.ack, RegTag.turn2, RegTag.val32p],
    ok := true }

/-! The eleven message states traversed by one reconnection cycle of the
retry loop under the all-OK line `envOK` (connect's select write, the
DPIDR read, then the nine `power_up` transactions); the final state is the
fixed point `msgA` above. -/
def MS1 : Msg :=
  { Start := 1, APnDP := 0, RnW := 0, Addr := 3, Parity := 0, Stop := 0, Park := 1,
    turn1 := 0, ack := 1, turn2 := 0, value := 16787751, vparity := 0,
    v32recv := false,
    regs := [RegTag.hdr, RegTag.turn1, RegTag.ack, RegTag.turn2, RegTag.val32p],
    ok := true }

def MS2 : Msg :=
  { Start := 1, APnDP := 0, RnW := 1, Addr := 0, Parity := 1, Stop := 0, Park := 1,
    turn1 := 0, ack := 1, turn2 := 0, value := 0, vparity := 0,
    v32recv := true,
    regs := [RegTag.hdr, RegTag.turn1, RegTag.ack, RegTag.val32p, RegTag.turn2],
    ok := true }

def MS3 : Msg :=
  { Start := 1, APnDP := 0, RnW := 0, Addr := 0, Parity := 0, Stop := 0, Park := 1,
    turn1 := 0, ack := 1, turn2 := 0, value := 30, vparity := 0,
    v32recv := false,
    regs := [RegTag.hdr, RegTag.turn1, RegTag.ack, RegTag.turn2, RegTag.val32p],
    ok := true }

def MS4 : Msg :=
  { Start := 1, APnDP := 0, RnW := 0, Addr := 2, Parity := 1, Stop := 0, Park := 1,
    turn1 := 0, ack := 1, turn2 := 0, value := 0, vparity := 0,
    v32recv := false,
    regs := [RegTag.hdr, RegTag.turn1, RegTag.ack, RegTag.turn2, RegTag.val32p],
    ok := true }

def MS5 : Msg :=
  { Start := 1, APnDP := 0, RnW := 0, Addr := 1, Parity := 1, Stop := 0, Park := 1,
    turn1 := 0, ack := 1, turn2 := 0, value := 1342177281, vparity := 1,
    v32recv := false,
    regs := [RegTag.hdr, RegTag.turn1, RegTag.ack, RegTag.turn2, RegTag.val32p],
    ok := true }

def MS6 : Msg :=
  { Start := 1, APnDP := 0, RnW := 1, Addr := 1, Parity := 0, Stop := 0, Park := 1,
    turn1 := 0, ack := 1, turn2 := 0, value := 0, vparity := 0,
    v32recv := true,
    regs := [RegTag.hdr, RegTag.turn1, RegTag.ack, RegTag.val32p, RegTag.turn2],
    ok := true }

def MS7 : Msg :=
  { Start := 1, APnDP := 0, RnW := 0, Addr := 2, Parity := 1, Stop := 0, Park := 1,
    turn1 := 0, ack := 1, turn2 := 0, value := 240, vparity := 0,
    v32recv := false,
    regs := [RegTag.hdr, RegTag.turn1, RegTag.ack, RegTag.turn2, RegTag.val32p],
    ok := true }

def MS8 : Msg :=
  { Start := 1, APnDP := 1, RnW := 1, Addr := 3, Parity := 0, Stop := 0, Park := 1,
    turn1 := 0, ack := 1, turn2 := 0, value := 0, vparity := 0,
    v32recv := true,
    regs := [RegTag.hdr, RegTag.turn1, RegTag.ack, RegTag.val32p, RegTag.turn2],
    ok := true }

def MS9 : Msg :=
  { Start := 1, APnDP := 0, RnW := 1, Addr := 3, Parity := 1, Stop := 0, Park := 1,
    turn1 := 0, ack := 1, turn2 := 0, value := 0, vparity := 0,
    v32recv := true,
    regs := [RegTag.hdr, RegTag.turn1, RegTag.ack, RegTag.val32p, RegTag.turn2],
    ok := true }

def MS10 : Msg :=
  { Start := 1, APnDP := 1, RnW := 0, Addr := 0, Parity := 1, Stop := 0, Park := 1,
    turn1 := 0, ack := 1, turn2 := 0, value := 2717909010, vparity := 1,
    v32recv := false,
    regs := [RegTag.hdr, RegTag.turn1, RegTag.ack, RegTag.turn2, RegTag.val32p],
    ok := true }

/-! ## Theorems -/

/-! ### Shared helper lemmas -/

/-- In driven mode the field loop of `recv_vals` touches neither the values
nor the buffer. -/
theorem recvValsAux_driven (fields : List BitField) (vals : List Nat) (rx : List Bool) :
    recvValsAux fields vals false rx = some (vals, rx) := by
  induction fields generalizing vals with
  | nil => rfl
  | cons f fs ih =>
    cases vals with
    | nil => rfl
    | cons v vs => simp [recvValsAux, ih]

/-! ### C4: the two debug-port core-select identifiers -/

/-- C4 counterexample: `DP_CORE0` and `DP_CORE1` do not differ in bit 4 —
their XOR is not `2 ^ 4`. -/
theorem c4_counterexample : DP_CORE0 ^^^ DP_CORE1 ≠ 2 ^ 4 := by decide

/-- C4 (amended): the two debug-port core-select identifiers are fixed
32-bit constants that differ only in bit 28, i.e. their XOR is `2 ^ 28`. -/
theorem c4_amended :
    DP_CORE0 ^^^ DP_CORE1 = 2 ^ 28 ∧ DP_CORE0 < 2 ^ 32 ∧ DP_CORE1 < 2 ^ 32 := by decide

/-! ### C7: frame order assembled by `set` -/

/-- C7: for every (access-port, address, value) triple, `set` assembles the
frames in the order Header, first Turnaround, Ack, and then DataWord before
the second Turnaround for a read, but the second Turnaround before the
DataWord for a write. -/
theorem c7_set_frame_order (ap addr val : Nat) (m : Msg) :
    (Msg.set ap SWD_RD addr val m).regs =
      [RegTag.hdr, RegTag.turn1, RegTag.ack, RegTag.val32p, RegTag.turn2] ∧
    (Msg.set ap SWD_WR addr val m).regs =
      [RegTag.hdr, RegTag.turn1, RegTag.ack, RegTag.turn2, RegTag.val32p] :=
  ⟨rfl, rfl⟩

/-! ### C5: the `check` validation -/

/-- C5: `check` sets `ok` exactly when the sampled ack code equals
`SWD_ACK_OK = 1` and, if the header marks a read (`RnW = 1`), the fold-XOR
parity of the sampled value matches the sampled parity bit; every other
ack code, or a parity mismatch on a read, gives `ok = false`. -/
theorem c5_check_ok (m : Msg) (h : m.RnW < 2) :
    (Msg.check m).ok = true ↔
      (m.ack = SWD_ACK_OK ∧ (m.RnW = 1 → parity32 m.value = m.vparity)) := by
  simp only [Msg.check, SWD_ACK_OK, Bool.and_eq_true, Bool.or_eq_true, beq_iff_eq]
  constructor
  · rintro ⟨h1, h2⟩
    refine ⟨h1, fun hr => ?_⟩
    rcases h2 with h2 | h2
    · omega
    · exact h2
  · rintro ⟨h1, h2⟩
    refine ⟨h1, ?_⟩
    have : m.RnW = 0 ∨ m.RnW = 1 := by omega
    rcases this with h0 | h0
    · exact Or.inl h0
    · exact Or.inr (h2 h0)

/-- Witness for C5 at a concrete passing message. -/
theorem c5_check_ok_witness :
    (Msg.check { Msg.init with ack := 1, RnW := 1 }).ok = true :=
  (c5_check_ok { Msg.init with ack := 1, RnW := 1 } (by decide)).mpr
    ⟨rfl, fun _ => by decide⟩

/-! ### C9: decoding a driven frame is a no-op -/

/-- C9: calling `recv_vals` on a register in driven mode changes no field
value and consumes no bits from the receive buffer. -/
theorem c9_recv_vals_driven_noop (r : BitReg) (rx : List Bool) (h : r.recv = false) :
    BitReg.recv_vals r rx = some (r, rx) := by
  obtain ⟨fs, rc, vs⟩ := r
  simp only at h
  subst h
  simp [BitReg.recv_vals, recvValsAux_driven]

/-- Witness for C9 on a concrete driven register and buffer. -/
theorem c9_recv_vals_driven_noop_witness :
    BitReg.recv_vals ⟨swd_hdr, false, [1, 0, 1, 0, 0, 0, 1]⟩ [true, false] =
      some (⟨swd_hdr, false, [1, 0, 1, 0, 0, 0, 1]⟩, [true, false]) :=
  c9_recv_vals_driven_noop _ _ rfl

/-! ### C8: field codec round-trip -/

/-- Reading back `w` bits of a value below `2 ^ w`, LSB first, restores the
value. -/
theorem bitsVal_testBits (w : Nat) : ∀ v : Nat, v < 2 ^ w →
    GpioDrv.bitsVal ((List.range w).map v.testBit) = v := by
  induction w with
  | zero =>
    intro v hv
    simp [GpioDrv.bitsVal]
    omega
  | succ w ih =>
    intro v hv
    rw [List.range_succ_eq_map, List.map_cons, List.map_map]
    have hcomp : v.testBit ∘ Nat.succ = (v / 2).testBit := by
      funext n
      exact Nat.testBit_succ v n
    rw [hcomp]
    have hv2 : v / 2 < 2 ^ w := by
      have : (2 : Nat) ^ (w + 1) = 2 ^ w * 2 := by ring
      omega
    simp only [GpioDrv.bitsVal, ih (v / 2) hv2]
    rw [Nat.testBit_zero]
    rcases Nat.mod_two_eq_zero_or_one v with h | h <;> simp [h] <;> omega

/-- The driven plan of `send_bits` carries exactly the bits of the value,
LSB first. -/
theorem planBools_send_bits (v w : Nat) :
    planBools (GpioDrv.send_bits v w false) = (List.range w).map v.testBit := by
  simp [planBools, GpioDrv.send_bits, List.map_map, Function.comp]

/-- `recv_bits` consumes exactly the `w` encoded bits and restores the
value. -/
theorem recv_bits_encode (v w : Nat) (hv : v < 2 ^ w) (rest : List Bool) :
    GpioDrv.recv_bits w ((List.range w).map v.testBit ++ rest) =
      (some v, rest) := by
  have hlen : ((List.range w).map v.testBit).length = w := by simp
  rw [GpioDrv.recv_bits, if_pos (by simp [hlen])]
  rw [List.take_left' hlen, List.drop_left' hlen, bitsVal_testBits w v hv]

/-- Aux round-trip: decoding the concatenated driven encodings of a field
list restores every value and leaves exactly the trailing buffer. -/
theorem roundtripAux (fields : List BitField) (vals vals₀ : List Nat)
    (h : List.Forall₂ (fun v f => v < 2 ^ f.width) vals fields)
    (h₀ : vals₀.length = fields.length) (rest : List Bool) :
    recvValsAux fields vals₀ true
      (planBools ((List.zipWith (fun (f : BitField) v => GpioDrv.send_bits v f.width false)
        fields vals).flatten) ++ rest) = some (vals, rest) := by
  induction h generalizing vals₀ rest with
  | nil =>
    have : vals₀ = [] := List.length_eq_zero.mp (by simpa using h₀)
    subst this
    simp [recvValsAux, planBools]
  | @cons v f vals fields hvf htail ih =>
    cases vals₀ with
    | nil => simp at h₀
    | cons w ws =>
      have hws : ws.length = fields.length := by simpa using h₀
      rw [List.zipWith_cons_cons, List.flatten_cons]
      rw [show planBools (GpioDrv.send_bits v f.width false ++
            (List.zipWith (fun (f : BitField) v => GpioDrv.send_bits v f.width false)
              fields vals).flatten) =
          planBools (GpioDrv.send_bits v f.width false) ++
          planBools ((List.zipWith (fun (f : BitField) v => GpioDrv.send_bits v f.width false)
              fields vals).flatten) from by simp [planBools]]
      rw [List.append_assoc, planBools_send_bits]
      simp only [recvValsAux, recv_bits_encode v f.width hvf]
      rw [ih ws hws rest]
      rfl

/-- C8: for every frame shape and all in-range field values, decoding the
bit sequence produced by encoding the frame (per-field `send_bits`, LSB
first, in declaration order, then per-field `recv_bits`) reproduces the
original field values exactly. -/
theorem c8_codec_roundtrip (fields : List BitField) (vals vals₀ : List Nat)
    (h : List.Forall₂ (fun v f => v < 2 ^ f.width) vals fields)
    (h₀ : vals₀.length = fields.length) :
    BitReg.recv_vals ⟨fields, true, vals₀⟩
        (planBools (BitReg.send_vals ⟨fields, false, vals⟩)) =
      some (⟨fields, true, vals⟩, []) := by
  have haux := roundtripAux fields vals vals₀ h h₀ []
  rw [List.append_nil] at haux
  simp [BitReg.recv_vals, BitReg.send_vals, haux]

/-- Witness for C8 on the data+parity frame shape with a concrete value. -/
theorem c8_codec_roundtrip_witness :
    BitReg.recv_vals ⟨swd_val32p, true, [0, 0]⟩
        (planBools (BitReg.send_vals ⟨swd_val32p, false, [0xdeadbeef, 1]⟩)) =
      some (⟨swd_val32p, true, [0xdeadbeef, 1]⟩, []) :=
  c8_codec_roundtrip swd_val32p [0xdeadbeef, 1] [0, 0]
    (List.Forall₂.cons (by decide) (List.Forall₂.cons (by decide) List.Forall₂.nil))
    rfl

/-! ### C10: the plan's samples exactly feed `recv_vals` -/

theorem sampleCount_append (p q : List Tx) :
    sampleCount (p ++ q) = sampleCount p + sampleCount q :=
  List.countP_append _ _ _

theorem sampleCount_replicate (n : Nat) :
    sampleCount (List.replicate n Tx.sample) = n := by
  induction n with
  | zero => rfl
  | succ n ih => simp [sampleCount, List.replicate_succ, List.countP_cons] at ih ⊢; omega

theorem sampleCount_send_bits_true (d n : Nat) :
    sampleCount (GpioDrv.send_bits d n true) = n := by
  have : GpioDrv.send_bits d n true = List.replicate n Tx.sample := by
    simp [GpioDrv.send_bits, List.eq_replicate_iff]
  rw [this, sampleCount_replicate]

theorem sampleCount_send_bits_false (d n : Nat) :
    sampleCount (GpioDrv.send_bits d n false) = 0 := by
  simp only [sampleCount]
  rw [List.countP_eq_zero]
  intro t ht
  simp [GpioDrv.send_bits] at ht
  obtain ⟨i, _, rfl⟩ := ht
  simp

/-- `xfer` returns exactly one sampled level per sample placeholder. -/
theorem xferAux_rx_length (plan : List Tx) :
    ∀ last k lvl, (GpioDrv.xferAux plan last k lvl).2.length = sampleCount plan := by
  induction plan with
  | nil => intro last k lvl; rfl
  | cons t rest ih =>
    intro last k lvl
    cases t with
    | sample =>
      simp only [GpioDrv.xferAux, List.length_cons, ih, sampleCount, List.countP_cons]
      simp
    | drive b =>
      simp only [GpioDrv.xferAux, ih, sampleCount, List.countP_cons]
      simp

/-- In sampled mode, a buffer at least as long as the declared width makes
every `recv_bits` call of the field loop succeed. -/
theorem recvValsAux_enough (fields : List BitField) :
    ∀ (vals : List Nat) (rx : List Bool), vals.length = fields.length →
      totalWidth fields ≤ rx.length →
      ∃ vs, recvValsAux fields vals true rx = some (vs, rx.drop (totalWidth fields)) := by
  induction fields with
  | nil =>
    intro vals rx hlen _
    have : vals = [] := List.length_eq_zero.mp (by simpa using hlen)
    subst this
    exact ⟨[], rfl⟩
  | cons f fs ih =>
    intro vals rx hlen hw
    cases vals with
    | nil => simp at hlen
    | cons v vs =>
      have hlen' : vs.length = fs.length := by simpa using hlen
      have htw : totalWidth (f :: fs) = f.width + totalWidth fs := by
        simp [totalWidth]
      have hfw : f.width ≤ rx.length := by omega
      have hrest : totalWidth fs ≤ (rx.drop f.width).length := by
        simp [List.length_drop]
        omega
      obtain ⟨ws, hws⟩ := ih vs (rx.drop f.width) hlen' hrest
      refine ⟨GpioDrv.bitsVal (rx.take f.width) :: ws, ?_⟩
      simp only [recvValsAux, GpioDrv.recv_bits, if_pos hfw, if_pos rfl, hws]
      simp [List.drop_drop, htw, Nat.add_comm]

/-- Driven-mode `recv_vals`, stated on the whole register. -/
theorem recv_vals_driven (r : BitReg) (rx : List Bool) (h : r.recv = false) :
    BitReg.recv_vals r rx = some (r, rx) := by
  obtain ⟨fs, rc, vs⟩ := r
  simp only at h
  subst h
  simp [BitReg.recv_vals, recvValsAux_driven]

/-- A buffer covering the decoded widths makes the whole register loop of
`recv_vals` succeed. -/
theorem recvAllRegs_enough (regs : List BitReg) :
    ∀ rx : List Bool, (∀ r ∈ regs, r.vals.length = r.fields.length) →
      recvWidthSum regs ≤ rx.length → ∃ q, recvAllRegs regs rx = some q := by
  induction regs with
  | nil => intro rx _ _; exact ⟨([], rx), rfl⟩
  | cons r rs ih =>
    intro rx hlen hw
    have hsum : recvWidthSum (r :: rs) =
        (if r.recv then totalWidth r.fields else 0) + recvWidthSum rs := by
      simp [recvWidthSum]
    rcases hr : r.recv with _ | _
    · have h1 : BitReg.recv_vals r rx = some (r, rx) := recv_vals_driven r rx hr
      obtain ⟨q, hq⟩ := ih rx (fun x hx => hlen x (List.mem_cons_of_mem r hx))
        (by simp [hsum, hr] at hw ⊢; omega)
      exact ⟨(r :: q.1, q.2), by simp [recvAllRegs, h1, hq]⟩
    · obtain ⟨vs, hvs⟩ := recvValsAux_enough r.fields r.vals rx
        (hlen r (List.mem_cons_self r rs))
        (by simp [hsum, hr] at hw; omega)
      have h1 : BitReg.recv_vals r rx =
          some ({ r with vals := vs }, rx.drop (totalWidth r.fields)) := by
        obtain ⟨fsr, rcr, vsr⟩ := r
        simp only at hr hvs
        subst hr
        simp [BitReg.recv_vals, hvs]
      obtain ⟨q, hq⟩ := ih (rx.drop (totalWidth r.fields))
        (fun x hx => hlen x (List.mem_cons_of_mem r hx))
        (by simp [List.length_drop]; simp [hsum, hr] at hw; omega)
      exact ⟨({ r with vals := vs } :: q.1, q.2), by simp [recvAllRegs, h1, hq]⟩

/-- C10: for both transaction shapes that `set` assembles, the number of
sample placeholders in the emitted plan equals the total declared width of
the frames decoded by `recv_vals`, and consequently — since `xfer` returns
one sampled bit per placeholder — every `recv_bits` call made while
decoding the transferred plan succeeds. -/
theorem c10_samples_feed_recv (rd a1 a2 a3 a4 a5 a6 a7 t1 av t2 v p : Nat) :
    sampleCount (planOf (swdRegs rd [a1, a2, a3, a4, a5, a6, a7] [t1] [av] [t2] [v, p])) =
      recvWidthSum (swdRegs rd [a1, a2, a3, a4, a5, a6, a7] [t1] [av] [t2] [v, p]) ∧
    ∀ lvl : Nat → Bool,
      (recvAllRegs (swdRegs rd [a1, a2, a3, a4, a5, a6, a7] [t1] [av] [t2] [v, p])
        (GpioDrv.xfer
          (planOf (swdRegs rd [a1, a2, a3, a4, a5, a6, a7] [t1] [av] [t2] [v, p]))
          lvl).2).isSome := by
  have hcount : ∀ regs : List BitReg,
      sampleCount (planOf regs) = (regs.map (fun r => sampleCount r.send_vals)).sum := by
    intro regs
    induction regs with
    | nil => rfl
    | cons r rs ih => simp [planOf, sampleCount_append] at ih ⊢; omega
  have heq : sampleCount
      (planOf (swdRegs rd [a1, a2, a3, a4, a5, a6, a7] [t1] [av] [t2] [v, p])) =
      recvWidthSum (swdRegs rd [a1, a2, a3, a4, a5, a6, a7] [t1] [av] [t2] [v, p]) := by
    by_cases h : rd = 0
    · subst h
      rw [hcount]
      simp [swdRegs, BitReg.send_vals, swd_hdr, swd_turn, swd_ack, swd_val32p,
        sampleCount_append, sampleCount_send_bits_true, sampleCount_send_bits_false,
        recvWidthSum, totalWidth]
    · have hb : (rd != 0) = true := by simp [h]
      rw [hcount]
      simp [swdRegs, hb, BitReg.send_vals, swd_hdr, swd_turn, swd_ack, swd_val32p,
        sampleCount_append, sampleCount_send_bits_true, sampleCount_send_bits_false,
        recvWidthSum, totalWidth]
  refine ⟨heq, fun lvl => ?_⟩
  have hlen : (GpioDrv.xfer
      (planOf (swdRegs rd [a1, a2, a3, a4, a5, a6, a7] [t1] [av] [t2] [v, p])) lvl).2.length =
      recvWidthSum (swdRegs rd [a1, a2, a3, a4, a5, a6, a7] [t1] [av] [t2] [v, p]) := by
    rw [GpioDrv.xfer, xferAux_rx_length, heq]
  have hv : ∀ r ∈ swdRegs rd [a1, a2, a3, a4, a5, a6, a7] [t1] [av] [t2] [v, p],
      r.vals.length = r.fields.length := by
    intro r hr
    by_cases h : rd = 0
    · subst h
      simp [swdRegs] at hr
      rcases hr with rfl | rfl | rfl | rfl | rfl <;> rfl
    · have hb : (rd != 0) = true := by simp [h]
      simp [swdRegs, hb] at hr
      rcases hr with rfl | rfl | rfl | rfl | rfl <;> rfl
  obtain ⟨q, hq⟩ := recvAllRegs_enough _ _ hv (le_of_eq hlen.symm)
  simp [hq]

/-- Witness for C10 at the read shape with all-zero values and an all-low
line. -/
theorem c10_samples_feed_recv_witness :
    sampleCount (planOf (swdRegs 1 [0, 0, 0, 0, 0, 0, 0] [0] [0] [0] [0, 0])) =
      recvWidthSum (swdRegs 1 [0, 0, 0, 0, 0, 0, 0] [0] [0] [0] [0, 0]) ∧
    (recvAllRegs (swdRegs 1 [0, 0, 0, 0, 0, 0, 0] [0] [0] [0] [0, 0])
      (GpioDrv.xfer (planOf (swdRegs 1 [0, 0, 0, 0, 0, 0, 0] [0] [0] [0] [0, 0]))
        (fun _ => false)).2).isSome :=
  ⟨(c10_samples_feed_recv 1 0 0 0 0 0 0 0 0 0 0 0 0).1,
   (c10_samples_feed_recv 1 0 0 0 0 0 0 0 0 0 0 0 0).2 (fun _ => false)⟩

/-! ### C3: sampling order and clock pulses in `xfer` -/

/-- Every `readData` of an `xfer` trace is either taken with the line
already configured as input, or is followed immediately by the lazy switch
to input — the capture always comes first on a direction change. -/
theorem xferAux_readsOk (plan : List Tx) :
    ∀ (last : Option Tx) (k : Nat) (lvl : Nat → Bool),
      readsOk (lastDir last) (GpioDrv.xferAux plan last k lvl).1 = true := by
  induction plan with
  | nil => intro last k lvl; rfl
  | cons t rest ih =>
    intro last k lvl
    cases t with
    | sample =>
      match last with
      | none =>
        simp [GpioDrv.xferAux, readsOk, dirStep, lastDir]
        exact ih (some Tx.sample) (k + 1) lvl
      | some Tx.sample =>
        simp [GpioDrv.xferAux, readsOk, dirStep, lastDir]
        exact ih (some Tx.sample) (k + 1) lvl
      | some (Tx.drive b') =>
        simp [GpioDrv.xferAux, readsOk, dirStep, lastDir]
        exact ih (some Tx.sample) (k + 1) lvl
    | drive b =>
      match last with
      | none =>
        simp [GpioDrv.xferAux, readsOk, dirStep, lastDir]
        exact ih (some (Tx.drive b)) k lvl
      | some Tx.sample =>
        simp [GpioDrv.xferAux, readsOk, dirStep, lastDir]
        exact ih (some (Tx.drive b)) k lvl
      | some (Tx.drive b') =>
        simp [GpioDrv.xferAux, readsOk, dirStep, lastDir]
        exact ih (some (Tx.drive b)) k lvl

/-- Each transmit entry contributes exactly one clock pulse, rising edge
then falling edge. -/
theorem xferAux_clk (plan : List Tx) :
    ∀ (last : Option Tx) (k : Nat) (lvl : Nat → Bool),
      (GpioDrv.xferAux plan last k lvl).1.filter isClk =
        (List.replicate plan.length [Ev.clkHigh, Ev.clkLow]).flatten := by
  induction plan with
  | nil => intro last k lvl; rfl
  | cons t rest ih =>
    intro last k lvl
    cases t with
    | sample =>
      match last with
      | none => simp [GpioDrv.xferAux, isClk, List.replicate_succ, ih]
      | some Tx.sample => simp [GpioDrv.xferAux, isClk, List.replicate_succ, ih]
      | some (Tx.drive b') => simp [GpioDrv.xferAux, isClk, List.replicate_succ, ih]
    | drive b =>
      match last with
      | none => simp [GpioDrv.xferAux, isClk, List.replicate_succ, ih]
      | some Tx.sample => simp [GpioDrv.xferAux, isClk, List.replicate_succ, ih]
      | some (Tx.drive b') => simp [GpioDrv.xferAux, isClk, List.replicate_succ, ih]

/-- C3 counterexample: it is not true that every sample entry has the data
line configured as input before its level is captured — on the plan
`[drive 0, sample]` the sample's level is read while the line is still an
output (the lazy input switch happens after the capture). -/
theorem c3_counterexample :
    ¬ ∀ (plan : List Tx) (lvl : Nat → Bool),
        anyReadAtOut Dir.inp (GpioDrv.xfer plan lvl).1 = false ∧
        (GpioDrv.xfer plan lvl).1.filter isClk =
          (List.replicate plan.length [Ev.clkHigh, Ev.clkLow]).flatten := by
  intro h
  have h2 := (h [Tx.drive false, Tx.sample] (fun _ => false)).1
  exact absurd h2 (by decide)

/-- C3 (amended): every sample entry captures the data-line level first
and the (lazy) switch of the line to input follows the capture
immediately when the previous entry was not itself a sample; and every
entry — driven or sampled — is followed by exactly one clock pulse, clock
high then clock low. -/
theorem c3_amended (plan : List Tx) (lvl : Nat → Bool) :
    readsOk Dir.inp (GpioDrv.xfer plan lvl).1 = true ∧
    (GpioDrv.xfer plan lvl).1.filter isClk =
      (List.replicate plan.length [Ev.clkHigh, Ev.clkLow]).flatten :=
  ⟨xferAux_readsOk plan none 0 lvl, xferAux_clk plan none 0 lvl⟩

/-! ### C1: what gates the value returned by `peek` -/

/-- C1 counterexample: under the line behaviour `envFail0` the first
sub-transaction of `peek` (the write of the address to AP register 4)
fails its check (all-low samples give ack = 0), yet `peek` still returns
a value, because only the `ok` flag of the last sub-transaction is
consulted. -/
theorem c1_counterexample :
    (Conn.peek envFail0 0 Conn.init).map Prod.fst = some (some 0) ∧
    (Conn.doWrite envFail0 SWD_AP 4 0 Conn.init).map (fun c => c.msg.ok) = some false :=
  ⟨rfl, rfl⟩

/-- C1 (amended): `peek` always performs its three sub-transactions and
returns the fetched word exactly when the third sub-transaction (the read
of DP register 0xC) passes `check`; the checks of the first two sub-steps
do not influence whether a value is returned. -/
theorem c1_amended (env : Nat → Nat → Bool) (addr : Nat) (c : Conn) :
    ∃ c1 c2 c3 : Conn,
      Conn.doWrite env SWD_AP 4 addr c = some c1 ∧
      Conn.doRead env SWD_AP 0xc c1 = some c2 ∧
      Conn.doRead env SWD_DP 0xc c2 = some c3 ∧
      Conn.peek env addr c =
        some ((if c3.msg.ok then some c3.msg.value else none), c3) :=
  ⟨_, _, _, rfl, rfl, rfl, rfl⟩

/-! ### C2: behaviour of the retry loop `conn_func_retry` -/

/-- Case analysis of one loop iteration (with an operation supplied): it
either continues with a value that can only have come from a successful
operation call, or exits at the `while` guard — returning `none` only with
an exhausted budget — or models a ctypes crash. -/
theorem loopStep_cases (env : Nat → Nat → Bool) (f : Conn → Option Nat × Conn) (s : LoopSt) :
    (∃ s0, loopStep env (some f) s = LoopRes.more s0 ∧
      (s0.val = none ∨ ∃ x cc, s0.val = some x ∧ (f cc).1 = some x)) ∨
    (loopStep env (some f) s = LoopRes.out s.val s ∧ (s.val = none → s.tries = 0)) ∨
    loopStep env (some f) s = LoopRes.crash := by
  unfold loopStep
  by_cases hg : (s.tries == 0 || s.val.isSome) = true
  · rw [if_pos hg]
    refine Or.inr (Or.inl ⟨rfl, fun hv => ?_⟩)
    rw [hv] at hg
    simpa using hg
  · rw [if_neg hg]
    rcases hb : loopBody1 env s.c s.tries with _ | ⟨c1, tries1⟩
    · exact Or.inr (Or.inr rfl)
    · rcases hc : c1.connected with _ | _
      · simp only [Option.elim, hc, Bool.false_eq_true, if_false]
        exact Or.inl ⟨_, rfl, Or.inl rfl⟩
      · simp only [Option.elim, hc, if_true]
        rcases hf : f c1 with ⟨v1, c2⟩
        cases v1 with
        | none => exact Or.inl ⟨_, rfl, Or.inl rfl⟩
        | some x =>
          exact Or.inl ⟨_, rfl, Or.inr ⟨x, c1, rfl, by rw [hf]⟩⟩

/-- Exit analysis of the bounded loop: starting from a state whose pending
value can only have come from a successful operation call, an exit with
`none` happens only with the budget at zero, and an exit with a value means
some operation call returned that value. -/
theorem loopRun_out_inv (env : Nat → Nat → Bool) (f : Conn → Option Nat × Conn) :
    ∀ (fuel : Nat) (s : LoopSt) (v : Option Nat) (s' : LoopSt),
      (s.val = none ∨ ∃ x cc, s.val = some x ∧ (f cc).1 = some x) →
      loopRun env (some f) fuel s = LoopRes.out v s' →
      (v = none → s'.tries = 0) ∧ ∀ x, v = some x → ∃ cc, (f cc).1 = some x := by
  intro fuel
  induction fuel with
  | zero => intro s v s' _ hrun; exact absurd hrun (by simp [loopRun])
  | succ fuel ih =>
    intro s v s' hJ hrun
    rw [loopRun] at hrun
    rcases loopStep_cases env f s with ⟨s0, hstep, hJ0⟩ | ⟨hstep, hzero⟩ | hstep
    · rw [hstep] at hrun
      simp only [loopCont] at hrun
      exact ih s0 v s' hJ0 hrun
    · rw [hstep] at hrun
      simp only [loopCont] at hrun
      injection hrun with h1 h2
      subst h1
      subst h2
      constructor
      · intro hv
        exact hzero hv
      · intro x hx
        rcases hJ with hnone | ⟨y, cc, hy, hcc⟩
        · rw [hnone] at hx; cases hx
        · rw [hy] at hx
          injection hx with hx
          subst hx
          exact ⟨cc, hcc⟩
    · rw [hstep] at hrun
      simp only [loopCont] at hrun
      cases hrun

/-- C2 (amended): whenever `conn_func_retry`'s loop exits, it returns no
value only with the retry budget at zero, and it returns a value only if
some call of the operation produced exactly that value.  (Termination
itself does not hold for every line behaviour — see the counterexample.) -/
theorem c2_amended (env : Nat → Nat → Bool) (f : Conn → Option Nat × Conn)
    (fuel : Nat) (c : Conn) (v : Option Nat) (s' : LoopSt)
    (hrun : conn_func_retry env (some f) fuel c = LoopRes.out v s') :
    (v = none → s'.tries = 0) ∧ ∀ x, v = some x → ∃ cc, (f cc).1 = some x :=
  loopRun_out_inv env f fuel { c := c, tries := NUM_TRIES, val := none } v s'
    (Or.inl rfl) hrun

/-! The per-transaction message evolution of one reconnection cycle under
the all-OK line, each step checked by evaluation. -/

theorem envOK_eq (t : Nat) : envOK t = fun k => k == 1 := rfl

theorem obind {α β : Type} (a : α) (f : α → Option β) : (some a).bind f = f a := rfl

theorem omap {α β : Type} (a : α) (f : α → β) : (some a).map f = some (f a) := rfl

theorem loopMsg1 :
    Msg.write (fun k => k == 1) SWD_DP 0xc DP_CORE0 Msg.init = some MS1 := rfl

theorem loopMsg1A :
    Msg.write (fun k => k == 1) SWD_DP 0xc DP_CORE0 msgA = some MS1 := rfl

theorem loopMsg2 : Msg.read (fun k => k == 1) SWD_DP 0 MS1 = some MS2 := rfl

theorem loopMsg3 : Msg.write (fun k => k == 1) SWD_DP 0 0x1e MS2 = some MS3 := rfl

theorem loopMsg4 : Msg.write (fun k => k == 1) SWD_DP 8 0 MS3 = some MS4 := rfl

theorem loopMsg5 :
    Msg.write (fun k => k == 1) SWD_DP 4 0x50000001 MS4 = some MS5 := rfl

theorem loopMsg6 : Msg.read (fun k => k == 1) SWD_DP 4 MS5 = some MS6 := rfl

theorem loopMsg7 : Msg.write (fun k => k == 1) SWD_DP 8 0xf0 MS6 = some MS7 := rfl

theorem loopMsg8 : Msg.read (fun k => k == 1) SWD_AP 0xc MS7 = some MS8 := rfl

theorem loopMsg9 : Msg.read (fun k => k == 1) SWD_DP 0xc MS8 = some MS9 := rfl

theorem loopMsg10 :
    Msg.write (fun k => k == 1) SWD_AP 0 0xA2000012 MS9 = some MS10 := rfl

theorem loopMsg11 : Msg.write (fun k => k == 1) SWD_DP 8 0 MS10 = some msgA := rfl

/-! The same cycle lifted to the connection level, one transfer at a time. -/

theorem cs1 (b : Bool) (t : Nat) :
    Conn.connect envOK { connected := b, dp := DP_CORE0, t := t, msg := Msg.init } =
      some { connected := b, dp := DP_CORE0, t := t + 2, msg := MS1 } := by
  rw [Conn.connect, Conn.doWrite]
  simp only []
  rw [envOK_eq, loopMsg1]
  rfl

theorem cs1A (b : Bool) (t : Nat) :
    Conn.connect envOK { connected := b, dp := DP_CORE0, t := t, msg := msgA } =
      some { connected := b, dp := DP_CORE0, t := t + 2, msg := MS1 } := by
  rw [Conn.connect, Conn.doWrite]
  simp only []
  rw [envOK_eq, loopMsg1A]
  rfl

theorem cs2 (b : Bool) (t : Nat) :
    Conn.get_dpidr envOK { connected := b, dp := DP_CORE0, t := t, msg := MS1 } =
      some (some 0, { connected := b, dp := DP_CORE0, t := t + 1, msg := MS2 }) := by
  rw [Conn.get_dpidr, Conn.doRead]
  simp only []
  rw [envOK_eq, loopMsg2]
  rfl

theorem cs3 (b : Bool) (t : Nat) :
    Conn.doWrite envOK SWD_DP 0 0x1e { connected := b, dp := DP_CORE0, t := t, msg := MS2 } =
      some { connected := b, dp := DP_CORE0, t := t + 1, msg := MS3 } := by
  rw [Conn.doWrite]
  simp only []
  rw [envOK_eq, loopMsg3]
  rfl

theorem cs4 (b : Bool) (t : Nat) :
    Conn.doWrite envOK SWD_DP 8 0 { connected := b, dp := DP_CORE0, t := t, msg := MS3 } =
      some { connected := b, dp := DP_CORE0, t := t + 1, msg := MS4 } := by
  rw [Conn.doWrite]
  simp only []
  rw [envOK_eq, loopMsg4]
  rfl

theorem cs5 (b : Bool) (t : Nat) :
    Conn.doWrite envOK SWD_DP 4 0x50000001
        { connected := b, dp := DP_CORE0, t := t, msg := MS4 } =
      some { connected := b, dp := DP_CORE0, t := t + 1, msg := MS5 } := by
  rw [Conn.doWrite]
  simp only []
  rw [envOK_eq, loopMsg5]
  rfl

theorem cs6 (b : Bool) (t : Nat) :
    Conn.doRead envOK SWD_DP 4 { connected := b, dp := DP_CORE0, t := t, msg := MS5 } =
      some { connected := b, dp := DP_CORE0, t := t + 1, msg := MS6 } := by
  rw [Conn.doRead]
  simp only []
  rw [envOK_eq, loopMsg6]
  rfl

theorem cs7 (b : Bool) (t : Nat) :
    Conn.doWrite envOK SWD_DP 8 0xf0 { connected := b, dp := DP_CORE0, t := t, msg := MS6 } =
      some { connected := b, dp := DP_CORE0, t := t + 1, msg := MS7 } := by
  rw [Conn.doWrite]
  simp only []
  rw [envOK_eq, loopMsg7]
  rfl

theorem cs8 (b : Bool) (t : Nat) :
    Conn.doRead envOK SWD_AP 0xc { connected := b, dp := DP_CORE0, t := t, msg := MS7 } =
      some { connected := b, dp := DP_CORE0, t := t + 1, msg := MS8 } := by
  rw [Conn.doRead]
  simp only []
  rw [envOK_eq, loopMsg8]
  rfl

theorem cs9 (b : Bool) (t : Nat) :
    Conn.doRead envOK SWD_DP 0xc { connected := b, dp := DP_CORE0, t := t, msg := MS8 } =
      some { connected := b, dp := DP_CORE0, t := t + 1, msg := MS9 } := by
  rw [Conn.doRead]
  simp only []
  rw [envOK_eq, loopMsg9]
  rfl

theorem cs10 (b : Bool) (t : Nat) :
    Conn.doWrite envOK SWD_AP 0 0xA2000012
        { connected := b, dp := DP_CORE0, t := t, msg := MS9 } =
      some { connected := b, dp := DP_CORE0, t := t + 1, msg := MS10 } := by
  rw [Conn.doWrite]
  simp only []
  rw [envOK_eq, loopMsg10]
  rfl

theorem cs11 (b : Bool) (t : Nat) :
    Conn.doWrite envOK SWD_DP 8 0 { connected := b, dp := DP_CORE0, t := t, msg := MS10 } =
      some { connected := b, dp := DP_CORE0, t := t + 1, msg := msgA } := by
  rw [Conn.doWrite]
  simp only []
  rw [envOK_eq, loopMsg11]
  rfl

/-- The whole `power_up` handshake under the all-OK line. -/
theorem power_up_envOK (b : Bool) (t : Nat) :
    Conn.power_up envOK { connected := b, dp := DP_CORE0, t := t, msg := MS2 } =
      some (some 0, { connected := b, dp := DP_CORE0, t := t + 9, msg := msgA }) := by
  rw [Conn.power_up, cs3, obind, cs4, obind, cs5, obind, cs6, obind, cs7, obind,
    cs8, obind, cs9, obind]
  rw [cs10, obind, cs11, omap]
  rfl

/-- The reconnection half of a loop iteration under the all-OK line, from
a disconnected state carrying the initial or the steady-state message:
connect, DPIDR read and power-up all succeed, so it returns a connected
state twelve transfers later with the budget reset to `NUM_TRIES`. -/
theorem loopBody1_envOK (t tries : Nat) (m : Msg) (hm : m = Msg.init ∨ m = msgA) :
    loopBody1 envOK { connected := false, dp := DP_CORE0, t := t, msg := m } tries =
      some ({ connected := true, dp := DP_CORE0, t := t + 12, msg := msgA }, NUM_TRIES) := by
  have hneg :
      ¬(({ connected := false, dp := DP_CORE0, t := t, msg := m } : Conn).connected = true) := by
    simp
  rcases hm with rfl | rfl
  · rw [loopBody1, if_neg hneg, cs1, obind]
    simp only []
    rw [cs2, obind]
    simp only []
    rw [power_up_envOK, obind]
  · rw [loopBody1, if_neg hneg, cs1A, obind]
    simp only []
    rw [cs2, obind]
    simp only []
    rw [power_up_envOK, obind]

/-- One full iteration under the all-OK line with the always-failing
operation: reconnect succeeds (resetting the budget to `NUM_TRIES`), the
operation fails, so the loop continues disconnected with budget 2. -/
theorem loopStep_envOK_funcNone (t n : Nat) (m : Msg) (hm : m = Msg.init ∨ m = msgA) :
    loopStep envOK (some funcNone)
        ⟨{ connected := false, dp := DP_CORE0, t := t, msg := m }, n + 1, none⟩ =
      LoopRes.more
        ⟨{ connected := false, dp := DP_CORE0, t := t + 12, msg := msgA }, 2, none⟩ := by
  rw [loopStep]
  simp only []
  rw [loopBody1_envOK t (n + 1) m hm]
  rfl

/-- The loop never exits under an all-OK line with an always-failing
operation: every reachable state keeps a broken connection, no value and a
positive budget. -/
theorem loopRun_envOK_funcNone (fuel : Nat) :
    ∀ (t tries : Nat) (m : Msg), m = Msg.init ∨ m = msgA → 1 ≤ tries →
      ∃ s', loopRun envOK (some funcNone) fuel
          ⟨{ connected := false, dp := DP_CORE0, t := t, msg := m }, tries, none⟩ =
          LoopRes.more s' := by
  induction fuel with
  | zero => intro t tries m _ _; exact ⟨_, rfl⟩
  | succ fuel ih =>
    intro t tries m hm htr
    cases tries with
    | zero => omega
    | succ n =>
      rw [loopRun, loopStep_envOK_funcNone t n m hm]
      simp only [loopCont]
      exact ih (t + 12) 2 msgA (Or.inr rfl) (by omega)

/-- C2 counterexample: there is a line behaviour (`envOK`: every
transaction succeeds) and an operation (`funcNone`: every call fails)
under which `conn_func_retry` never terminates — each reconnection resets
the budget to full and each failed operation only brings it back down to
2, for ever. -/
theorem c2_counterexample :
    ¬ ∃ fuel : Nat, LoopTerminal (conn_func_retry envOK (some funcNone) fuel Conn.init) := by
  rintro ⟨fuel, hterm⟩
  obtain ⟨s', hs'⟩ := loopRun_envOK_funcNone fuel 0 NUM_TRIES Msg.init (Or.inl rfl) (by decide)
  have heq : conn_func_retry envOK (some funcNone) fuel Conn.init = LoopRes.more s' := hs'
  rw [heq] at hterm
  exact hterm

/-- One iteration with the operation that returns 5: after the successful
reconnection the operation succeeds, so the loop records the value. -/
theorem loopStep_envOK_funcFive :
    loopStep envOK (some funcFive)
        ⟨{ connected := false, dp := DP_CORE0, t := 0, msg := Msg.init }, NUM_TRIES, none⟩ =
      LoopRes.more
        ⟨{ connected := true, dp := DP_CORE0, t := 12, msg := msgA }, NUM_TRIES, some 5⟩ := by
  rw [loopStep]
  simp only []
  rw [loopBody1_envOK 0 NUM_TRIES Msg.init (Or.inl rfl)]
  rfl

/-- Under the all-OK line, `conn_func_retry` with the operation that
returns 5 exits on its second iteration with that value. -/
theorem conn_func_retry_envOK_funcFive :
    conn_func_retry envOK (some funcFive) 2 Conn.init =
      LoopRes.out (some 5)
        ⟨{ connected := true, dp := DP_CORE0, t := 12, msg := msgA }, NUM_TRIES, some 5⟩ := by
  rw [conn_func_retry, loopRun,
    show ({ c := Conn.init, tries := NUM_TRIES, val := none } : LoopSt) =
      ⟨{ connected := false, dp := DP_CORE0, t := 0, msg := Msg.init }, NUM_TRIES, none⟩ from rfl,
    loopStep_envOK_funcFive]
  simp only [loopCont]
  rw [loopRun]
  rfl

/-- Witness for C2 (amended): with an all-OK line and the operation that
returns 5, the loop exits within two iterations and the theorem recovers
the successful call. -/
theorem c2_amended_witness : ∃ cc, (funcFive cc).1 = some 5 := by
  have h := c2_amended envOK funcFive 2 Conn.init (some 5)
    ⟨{ connected := true, dp := DP_CORE0, t := 12, msg := msgA }, NUM_TRIES, some 5⟩
    conn_func_retry_envOK_funcFive
  exact h.2 5 rfl

/-! ### C6: `parity32` computes the population-count parity -/

/-- `popcountAux` does not depend on the fuel once it covers the input. -/
theorem popcountAux_irrel : ∀ f1 f2 n : Nat, n ≤ f1 → n ≤ f2 →
    popcountAux f1 n = popcountAux f2 n := by
  intro f1
  induction f1 with
  | zero =>
    intro f2 n h1 _
    have hn : n = 0 := by omega
    subst hn
    cases f2 <;> simp [popcountAux]
  | succ f ih =>
    intro f2 n h1 h2
    cases f2 with
    | zero =>
      have hn : n = 0 := by omega
      subst hn
      simp [popcountAux]
    | succ g =>
      by_cases hn : n = 0
      · subst hn
        simp [popcountAux]
      · simp only [popcountAux, if_neg hn]
        have hdiv : n / 2 < n := Nat.div_lt_self (by omega) (by omega)
        rw [ih g (n / 2) (by omega) (by omega)]

/-- Recurrence of the population count. -/
theorem popcount_rec (n : Nat) : popcount n = n % 2 + popcount (n / 2) := by
  cases n with
  | zero => rfl
  | succ m =>
    show popcountAux (m + 1) (m + 1) = (m + 1) % 2 + popcountAux ((m + 1) / 2) ((m + 1) / 2)
    rw [popcountAux, if_neg (Nat.succ_ne_zero m)]
    have hdiv : (m + 1) / 2 < m + 1 := Nat.div_lt_self (by omega) (by omega)
    rw [popcountAux_irrel m ((m + 1) / 2) ((m + 1) / 2) (by omega) (le_refl _)]

/-- The population count splits across a power-of-two cut. -/
theorem popcount_add_pow : ∀ k x y : Nat, x < 2 ^ k →
    popcount (x + 2 ^ k * y) = popcount x + popcount y := by
  intro k
  induction k with
  | zero =>
    intro x y hx
    have hx0 : x = 0 := by omega
    subst hx0
    simp [popcount, popcountAux]
  | succ k ih =>
    intro x y hx
    have hpow : (2 : Nat) ^ (k + 1) = 2 * 2 ^ k := by ring
    have hmul : 2 ^ (k + 1) * y = 2 * (2 ^ k * y) := by ring
    rw [popcount_rec (x + 2 ^ (k + 1) * y), popcount_rec x]
    have h2 : (x + 2 ^ (k + 1) * y) % 2 = x % 2 := by
      rw [hmul]
      omega
    have h3 : (x + 2 ^ (k + 1) * y) / 2 = x / 2 + 2 ^ k * y := by
      rw [hmul]
      omega
    have h4 : x / 2 < 2 ^ k := by
      rw [hpow] at hx
      omega
    rw [h2, h3, ih (x / 2) y h4]
    omega

/-- Bitwise AND distributes over a power-of-two digit split. -/
theorem land_split (k x y c d : Nat) (hx : x < 2 ^ k) (hc : c < 2 ^ k) :
    (x + 2 ^ k * y) &&& (c + 2 ^ k * d) = (x &&& c) + 2 ^ k * (y &&& d) := by
  apply Nat.eq_of_testBit_eq
  intro i
  rw [Nat.testBit_land]
  rw [show x + 2 ^ k * y = 2 ^ k * y + x from by ring,
      show c + 2 ^ k * d = 2 ^ k * d + c from by ring,
      show (x &&& c) + 2 ^ k * (y &&& d) = 2 ^ k * (y &&& d) + (x &&& c) from by ring]
  rw [Nat.testBit_mul_pow_two_add y hx i, Nat.testBit_mul_pow_two_add d hc i,
      Nat.testBit_mul_pow_two_add (y &&& d) (Nat.and_lt_two_pow x hc) i]
  by_cases hik : i < k
  · simp [hik]
  · simp [hik, Nat.testBit_land]

/-- `land_split` at the byte radix. -/
theorem land_split8 (x y c d : Nat) (hx : x < 256) (hc : c < 256) :
    (x + 256 * y) &&& (c + 256 * d) = (x &&& c) + 256 * (y &&& d) :=
  land_split 8 x y c d hx hc

theorem rep_succ (b n : Nat) : rep b (n + 1) = b + 256 * rep b n := rfl

/-- Adding a bit-7 term does not change the low `0x55`-masked bits. -/
theorem mask55_abs : ∀ a, a < 128 → ∀ b, b < 2 →
    (a + 128 * b) &&& 0x55 = a &&& 0x55 := by decide

/-- Adding bits 6–7 does not change the low `0x33`-masked bits. -/
theorem mask33_abs : ∀ a, a < 64 → ∀ b, b < 4 →
    (a + 64 * b) &&& 0x33 = a &&& 0x33 := by decide

/-- Stage 1 of the SWAR pipeline acts independently on the low byte and
the rest. -/
theorem s1_split (n x y : Nat) (hx : x < 256) :
    s1 (n + 1) (x + 256 * y) = s1 1 x + 256 * s1 n y := by
  simp only [s1]
  have hsh : (x + 256 * y) >>> 1 = (x / 2 + 128 * (y % 2)) + 256 * (y >>> 1) := by
    rw [Nat.shiftRight_one, Nat.shiftRight_one]
    omega
  rw [hsh, rep_succ, land_split8 _ _ _ _ (by omega) (by norm_num),
      mask55_abs (x / 2) (by omega) (y % 2) (by omega)]
  simp only [Nat.shiftRight_one, rep, Nat.mul_zero, Nat.add_zero]
  have ha : x / 2 &&& 0x55 ≤ x := le_trans Nat.and_le_left (Nat.div_le_self x 2)
  have hb : y / 2 &&& rep 0x55 n ≤ y := le_trans Nat.and_le_left (Nat.div_le_self y 2)
  omega

/-- Stage 2 of the SWAR pipeline acts independently on the low byte and
the rest. -/
theorem s2_split (n x y : Nat) (hx : x < 256) :
    s2 (n + 1) (x + 256 * y) = s2 1 x + 256 * s2 n y := by
  simp only [s2]
  have hsh : (x + 256 * y) >>> 2 = (x / 4 + 64 * (y % 4)) + 256 * (y >>> 2) := by
    rw [Nat.shiftRight_eq_div_pow, Nat.shiftRight_eq_div_pow]
    norm_num
    omega
  rw [rep_succ, land_split8 x y 0x33 (rep 0x33 n) hx (by norm_num), hsh,
      land_split8 _ _ _ _ (by omega) (by norm_num),
      mask33_abs (x / 4) (by omega) (y % 4) (by omega)]
  simp only [Nat.shiftRight_eq_div_pow, rep, Nat.mul_zero, Nat.add_zero]
  try norm_num
  try omega

/-- Stage 3 of the SWAR pipeline acts independently on the low byte and
the rest, provided the nibble counts are small (as stage 2 guarantees). -/
theorem s3_split (n x y : Nat) (hx : x ≤ 0x66) (hy : y % 16 ≤ 6) :
    s3 (n + 1) (x + 256 * y) = s3 1 x + 256 * s3 n y := by
  simp only [s3]
  have hsh : (x + 256 * y) >>> 4 = (x / 16 + 16 * (y % 16)) + 256 * (y >>> 4) := by
    rw [Nat.shiftRight_eq_div_pow, Nat.shiftRight_eq_div_pow]
    norm_num
    omega
  have hre : (x + 256 * y) + ((x / 16 + 16 * (y % 16)) + 256 * (y >>> 4)) =
      (x + (x / 16 + 16 * (y % 16))) + 256 * (y + y >>> 4) := by ring
  rw [hsh, hre, rep_succ, land_split8 _ _ _ _ (by omega) (by norm_num)]
  have hmod : (x + (x / 16 + 16 * (y % 16))) &&& 0xF = (x + x / 16) &&& 0xF := by
    have e1 := Nat.and_pow_two_sub_one_eq_mod (x + (x / 16 + 16 * (y % 16))) 4
    have e2 := Nat.and_pow_two_sub_one_eq_mod (x + x / 16) 4
    norm_num at e1 e2
    rw [e1, e2]
    omega
  rw [hmod]
  simp only [Nat.shiftRight_eq_div_pow, rep, Nat.mul_zero, Nat.add_zero]
  try norm_num
  try omega

/-- Stage-1 output stays below the byte radix. -/
theorem s1_one_lt (x : Nat) (hx : x < 256) : s1 1 x < 256 := by
  simp only [s1]
  have := Nat.sub_le x ((x >>> 1) &&& rep 0x55 1)
  omega

/-- Stage-2 output on a byte is at most `0x66`. -/
theorem s2_one_le : ∀ x, x < 256 → s2 1 x ≤ 0x66 := by decide

/-- The low nibble of any stage-2 output counts at most 6 bits. -/
theorem s2_mod16 (n v : Nat) : s2 n v % 16 ≤ 6 := by
  cases n with
  | zero => simp [s2, rep, Nat.and_zero]
  | succ m =>
    have key : ∀ w : Nat, (w &&& rep 0x33 (m + 1)) % 16 ≤ 3 := by
      intro w
      have e1 := Nat.and_pow_two_sub_one_eq_mod (w &&& rep 0x33 (m + 1)) 4
      norm_num at e1
      rw [← e1, Nat.land_assoc]
      have e2 : rep 0x33 (m + 1) &&& 15 = 3 := by
        rw [rep_succ]
        have e3 := Nat.and_pow_two_sub_one_eq_mod (0x33 + 256 * rep 0x33 m) 4
        norm_num at e3
        rw [e3]
        omega
      rw [e2]
      exact Nat.and_le_right
    have k1 := key v
    have k2 := key (v >>> 2)
    simp only [s2]
    omega

/-- The whole mask pipeline acts byte-wise. -/
theorem pipe_split (n x y : Nat) (hx : x < 256) :
    pipe (n + 1) (x + 256 * y) = pcb x + 256 * pipe n y := by
  rw [pipe, s1_split n x y hx, s2_split n _ _ (s1_one_lt x hx),
      s3_split n _ _ (s2_one_le _ (s1_one_lt x hx)) (s2_mod16 n _)]
  rfl

/-- On a single byte the pipeline computes the population count. -/
theorem pcb_eq : ∀ b, b < 256 → pcb b = popcount b := by decide

theorem pcb_le : ∀ b, b < 256 → pcb b ≤ 8 := by decide

/-- `parity32` is the 4-byte pipeline followed by the byte-sum
multiply-accumulate. -/
theorem parity32_pipe (v : Nat) :
    parity32 v = ((pipe 4 v * 0x01010101) >>> 24) &&& 1 := rfl

/-- C6: for every 32-bit input, `parity32` equals the number of set bits
modulo 2. -/
theorem c6_parity32_popcount (v : Nat) (hv : v < 2 ^ 32) :
    parity32 v = popcount v % 2 := by
  have h32 : (2 : Nat) ^ 32 = 4294967296 := by norm_num
  rw [h32] at hv
  obtain ⟨b0, b1, b2, b3, hb0, hb1, hb2, hb3, rfl⟩ :
      ∃ b0 b1 b2 b3, b0 < 256 ∧ b1 < 256 ∧ b2 < 256 ∧ b3 < 256 ∧
        v = b0 + 256 * (b1 + 256 * (b2 + 256 * b3)) :=
    ⟨v % 256, v / 256 % 256, v / 256 / 256 % 256, v / 256 / 256 / 256,
      by omega, by omega, by omega, by omega, by omega⟩
  have h8 : (256 : Nat) = 2 ^ 8 := by norm_num
  have p0 := pcb_le b0 hb0
  have p1 := pcb_le b1 hb1
  have p2 := pcb_le b2 hb2
  have p3 := pcb_le b3 hb3
  rw [pcb_eq b0 hb0] at p0
  rw [pcb_eq b1 hb1] at p1
  rw [pcb_eq b2 hb2] at p2
  rw [pcb_eq b3 hb3] at p3
  have hpc : popcount (b0 + 256 * (b1 + 256 * (b2 + 256 * b3))) =
      popcount b0 + (popcount b1 + (popcount b2 + popcount b3)) := by
    rw [h8, popcount_add_pow 8 b0 _ (h8 ▸ hb0), popcount_add_pow 8 b1 _ (h8 ▸ hb1),
        popcount_add_pow 8 b2 _ (h8 ▸ hb2)]
  rw [parity32_pipe, pipe_split 3 b0 _ hb0, pipe_split 2 b1 _ hb1, pipe_split 1 b2 _ hb2,
      show pipe 1 b3 = pcb b3 from rfl,
      pcb_eq b0 hb0, pcb_eq b1 hb1, pcb_eq b2 hb2, pcb_eq b3 hb3,
      hpc, Nat.and_one_is_mod, Nat.shiftRight_eq_div_pow]
  have h24 : (2 : Nat) ^ 24 = 16777216 := by norm_num
  have hexp : (popcount b0 + 256 * (popcount b1 + 256 * (popcount b2 + 256 * popcount b3)))
        * 16843009
      = (popcount b0 + 256 * (popcount b0 + popcount b1)
          + 65536 * (popcount b0 + popcount b1 + popcount b2))
        + ((popcount b0 + popcount b1 + popcount b2 + popcount b3)
           + 256 * ((popcount b1 + popcount b2 + popcount b3)
             + 256 * ((popcount b2 + popcount b3) + 256 * popcount b3))) * 16777216 := by
    ring
  have hlow : popcount b0 + 256 * (popcount b0 + popcount b1)
      + 65536 * (popcount b0 + popcount b1 + popcount b2) < 16777216 := by omega
  rw [h24, hexp, Nat.add_mul_div_right _ _ (show (0 : Nat) < 16777216 by norm_num),
      Nat.div_eq_of_lt hlow]
  omega

/-- Witness for C6 at a concrete 32-bit value. -/
theorem c6_parity32_popcount_witness :
    (0xdeadbeef : Nat) < 2 ^ 32 ∧ parity32 0xdeadbeef = popcount 0xdeadbeef % 2 :=
  ⟨by norm_num, c6_parity32_popcount 0xdeadbeef (by norm_num)⟩
